import Mathlib

/-!
Verification of the MusicSpree acquisition and rotation core.

The development shallowly embeds the TypeScript sources:
  - `SlskdService.ts` (`calculateMatchScore`, `isAcceptableQuality`,
    `selectBestMatch`, `searchTrack`, `downloadTrack`),
  - `RecommendationsManager` (`selectFilesForRotation`,
    `selectFilesByStrategy`, `cleanupArchive`, `rotateOldTracks`,
    `cleanupInvalidFiles`),
  - `MusicSpree.downloadTracks`.
Strings are embedded as `List Char`, JS numbers as `Nat`/`Int`/`ℚ`
(match scores are exact decimal fractions, so `ℚ` is a faithful model
of the float arithmetic on the ranges exercised here), `Date` values as
`Int` epoch milliseconds, and optional JS fields as `Option`.
-/

namespace MusicSpree

/-- A character counts as a word character for the JS regex `\w`
(ASCII letters, digits and underscore). -/
def isWordChar (c : Char) : Bool :=
  ('a' ≤ c && c ≤ 'z') || ('A' ≤ c && c ≤ 'Z') || ('0' ≤ c && c ≤ '9') || c = '_'

/-- A character counts as whitespace for the JS regex `\s`
(space, tab, newline, carriage return, form feed, vertical tab). -/
def isWhite (c : Char) : Bool :=
  c = ' ' || c = '\t' || c = '\n' || c = '\r' || c = '\x0c' || c = '\x0b'

/-- ASCII lower-casing, the effect of JS `toLowerCase` on the ASCII range. -/
def jsLower (c : Char) : Char :=
  if 'A' ≤ c && c ≤ 'Z' then Char.ofNat (c.toNat + 32) else c

/-- One character step of the normalisation in `calculateMatchScore`:
lower-case, then replace characters matching `[^\w\s]` by a space. -/
def normChar (c : Char) : Char :=
  let c := jsLower c
  if isWordChar c || isWhite c then c else ' '

/-- Worker for `splitWs`: `acc` holds the reversed pending word. -/
def splitWsAcc (acc : List Char) : List Char → List (List Char)
  | [] => if acc.isEmpty then [] else [acc.reverse]
  | c :: cs =>
    if isWhite c then
      if acc.isEmpty then splitWsAcc [] cs else acc.reverse :: splitWsAcc [] cs
    else splitWsAcc (c :: acc) cs

/-- Split a character list into its maximal whitespace-free words,
dropping all whitespace (the token structure behind
`.replace(/\s+/g, " ").trim()`). -/
def splitWs (s : List Char) : List (List Char) :=
  splitWsAcc [] s

/-- Join words with single spaces. -/
def joinWs : List (List Char) → List Char
  | [] => []
  | [w] => w
  | w :: ws => w ++ ' ' :: joinWs ws

/-- The `normalize` helper of `calculateMatchScore`: lower-case, replace
`[^\w\s]` by spaces, collapse whitespace runs to single spaces, trim. -/
def normalizeStr (s : List Char) : List Char :=
  joinWs (splitWs (s.map normChar))

/-- JS `String.prototype.split` with a one-character separator
(keeps empty pieces; the empty string splits to `[[]]`). -/
def splitOnChar (sep : Char) : List Char → List (List Char)
  | [] => [[]]
  | c :: cs =>
    if c = sep then [] :: splitOnChar sep cs
    else
      match splitOnChar sep cs with
      | [] => [[c]]
      | w :: ws => (c :: w) :: ws

/-- Case-insensitive suffix test, the effect of an `/…$/i` regex match. -/
def endsWithCI (suffix s : List Char) : Bool :=
  (suffix.map jsLower).isSuffixOf (s.map jsLower)

/-- A wanted track (`Track.ts`): artist and title drive the matching. -/
structure Track where
  artist : List Char
  title : List Char
deriving DecidableEq, Repr

/-- A search-result file as used by `SlskdService`: the slskd fields that
`calculateMatchScore`, `isAcceptableQuality` and `initiateDownload` read.
Fields that a peer may omit are `Option`s. -/
structure CandidateFile where
  filename : Option (List Char)
  size : Option Nat
  bitRate : Option Nat
  username : Option (List Char)
deriving DecidableEq, Repr

/-- JS substring test `hay.includes(needle)` (true for the empty needle). -/
def includesStr (hay needle : List Char) : Bool :=
  decide (needle <:+: hay)

/-- Embedding of `SlskdService.calculateMatchScore` (SlskdService.ts
541–604). Scores are exact rationals; the JS decimal literals become the
corresponding fractions and the final `Math.min(score, 1.0)` is `min · 1`. -/
def calculateMatchScore (file : CandidateFile) (track : Track) : ℚ :=
  let fileName := normalizeStr (file.filename.getD [])
  let searchArtist := normalizeStr track.artist
  let searchTitle := normalizeStr track.title
  let score : ℚ := 0
  let score := if includesStr fileName searchArtist then score + 2/5 else score
  let score := if includesStr fileName searchTitle then score + 2/5 else score
  let artistWords := (splitOnChar ' ' searchArtist).filter (fun w => 2 < w.length)
  let titleWords := (splitOnChar ' ' searchTitle).filter (fun w => 2 < w.length)
  let artistMatches := (artistWords.filter (fun w => includesStr fileName w)).length
  let titleMatches := (titleWords.filter (fun w => includesStr fileName w)).length
  let score := if 0 < artistWords.length then
    score + ((artistMatches : ℚ) / (artistWords.length : ℚ)) * (1/5) else score
  let score := if 0 < titleWords.length then
    score + ((titleMatches : ℚ) / (titleWords.length : ℚ)) * (1/5) else score
  let score := match file.filename with
    | some fn =>
      if endsWithCI ('.' :: ['f','l','a','c']) fn || endsWithCI ('.' :: ['w','a','v']) fn then
        score + 1/10
      else if endsWithCI ('.' :: ['m','p','3']) fn then score + 1/20
      else score
    | none => score
  let score := match file.bitRate with
    | some b =>
      if b ≠ 0 then
        if 320 ≤ b then score + 1/20
        else if 256 ≤ b then score + 3/100
        else if 192 ≤ b then score + 1/100
        else score
      else score
    | none => score
  min score 1

/-- The audio extensions accepted by `isAcceptableQuality`'s
`/\.(mp3|flac|wav|m4a|ogg|aac)$/i` regex. -/
def acceptableExtensions : List (List Char) :=
  [['.','m','p','3'], ['.','f','l','a','c'], ['.','w','a','v'],
   ['.','m','4','a'], ['.','o','g','g'], ['.','a','a','c']]

/-- Whether the (possibly absent) filename carries an accepted audio
extension; an absent filename fails the regex match. -/
def hasAudioExt (filename : Option (List Char)) : Bool :=
  match filename with
  | none => false
  | some fn => acceptableExtensions.any (fun e => endsWithCI e fn)

/-- Embedding of `SlskdService.isAcceptableQuality` (SlskdService.ts
606–649). The JS guards `file.bitRate && file.bitRate < 128` and
`file.size && file.size < 1024*1024` test truthiness first, so an absent
or zero field skips the corresponding check. -/
def isAcceptableQuality (file : CandidateFile) : Bool :=
  if !hasAudioExt file.filename then false
  else if (match file.bitRate with
    | some b => decide (0 < b) && decide (b < 128)
    | none => false) then false
  else if (match file.size with
    | some s => decide (0 < s) && decide (s < 1024 * 1024)
    | none => false) then false
  else true

section StableSort

variable {α : Type} {β : Type} [LinearOrder β]

/-- Insert `x` into a list sorted ascending by `key`, after the strictly
smaller prefix and before equal keys (the stable position). -/
def insertAscBy (key : α → β) (x : α) : List α → List α
  | [] => [x]
  | y :: ys => if key y < key x then y :: insertAscBy key x ys else x :: y :: ys

/-- Stable ascending insertion sort by `key`. JS `Array.prototype.sort`
is required to be stable, and a stable sorted permutation is unique, so
this is the list any stable sort produces. -/
def sortAscBy (key : α → β) : List α → List α
  | [] => []
  | x :: xs => insertAscBy key x (sortAscBy key xs)

/-- Stable descending sort by `key`: ascending by the dual order
(models a JS sort with comparator `(a, b) => key b - key a`). -/
def sortDescBy (key : α → β) (l : List α) : List α :=
  sortAscBy (fun a => OrderDual.toDual (key a)) l

end StableSort

/-- Embedding of `SlskdService.selectBestMatch` (SlskdService.ts
459–539): score every result, sort stably by descending score, filter by
score > 0.5 plus quality, fall back to score > 0.3 plus quality, and
return the first survivor, else `null`. -/
def selectBestMatch (searchResults : List CandidateFile) (track : Track) :
    Option CandidateFile :=
  if searchResults.isEmpty then none
  else
    let scoredResults := searchResults.map
      (fun file => (file, calculateMatchScore file track))
    let sorted := sortDescBy Prod.snd scoredResults
    let qualityFiltered := sorted.filter
      (fun r => decide ((1:ℚ)/2 < r.2) && isAcceptableQuality r.1)
    match qualityFiltered with
    | r :: _ => some r.1
    | [] =>
      let fallbackFiltered := sorted.filter
        (fun r => decide ((3:ℚ)/10 < r.2) && isAcceptableQuality r.1)
      match fallbackFiltered with
      | r :: _ => some r.1
      | [] => none

section FirstMax

variable {α : Type} {β : Type} [LinearOrder β]

/-- First element of the list attaining the minimal key (earlier elements
win ties). -/
def firstMinBy (key : α → β) : List α → Option α
  | [] => none
  | x :: xs =>
    match firstMinBy key xs with
    | none => some x
    | some m => if key m < key x then some m else some x

/-- First element of the list attaining the maximal key (earlier elements
win ties). -/
def firstMaxBy (key : α → β) : List α → Option α
  | [] => none
  | x :: xs =>
    match firstMaxBy key xs with
    | none => some x
    | some m => if key x < key m then some m else some x

end FirstMax

/-- The specification's description of best-match selection, written from
the spec text: among acceptable candidates scoring strictly above 0.5
pick the maximal score, first-seen winning ties; failing that, the same
with threshold 0.3; failing that, `null`. To be compared with
`selectBestMatch`. -/
def specSelectBestMatch (searchResults : List CandidateFile) (track : Track) :
    Option CandidateFile :=
  let tier1 := searchResults.filter
    (fun f => decide ((1:ℚ)/2 < calculateMatchScore f track) && isAcceptableQuality f)
  match firstMaxBy (fun f => calculateMatchScore f track) tier1 with
  | some f => some f
  | none =>
    let tier2 := searchResults.filter
      (fun f => decide ((3:ℚ)/10 < calculateMatchScore f track) && isAcceptableQuality f)
    firstMaxBy (fun f => calculateMatchScore f track) tier2

/-- A file of the current or archive collection as inventoried by
`RecommendationsManager.getFilesInDirectory`: name, size in bytes and
modification time in epoch milliseconds. -/
structure RecommendationFile where
  name : List Char
  size : Nat
  modified : Int
deriving DecidableEq, Repr

/-- The rotation strategies of `selectFilesByStrategy`
(`config.rotationStrategy`). -/
inductive RotationStrategy
  | oldest_first
  | random
  | least_played
  | other
deriving DecidableEq, Repr

/-- Embedding of `RecommendationsManager.selectFilesByStrategy`
(lines 546–577): pick `count` files, sorted oldest-first for the
`oldest_first` and `least_played` strategies (and the default branch), or
from a Fisher–Yates shuffle for `random`. The shuffle's `Math.random`
draws are abstracted into the `shuffle` parameter; theorems assume only
that it permutes its input. -/
def selectFilesByStrategy (shuffle : List RecommendationFile → List RecommendationFile)
    (strategy : RotationStrategy) (files : List RecommendationFile) (count : Int) :
    List RecommendationFile :=
  if count ≤ 0 || files.isEmpty then []
  else
    let sorted := match strategy with
      | .oldest_first => sortAscBy RecommendationFile.modified files
      | .random => shuffle files
      | .least_played => sortAscBy RecommendationFile.modified files
      | .other => sortAscBy RecommendationFile.modified files
    sorted.take count.toNat

/-- Embedding of `RecommendationsManager.selectFilesForRotation`
(lines 517–544). `maxTracks` is `config.recommendationsMaxTracks` and
`maxAgeCutoff` is the precomputed `Date.now() − maxAgeDays·86400000`
against which `file.modified < maxAge` is tested. -/
def selectFilesForRotation (shuffle : List RecommendationFile → List RecommendationFile)
    (strategy : RotationStrategy) (maxTracks : Nat) (maxAgeCutoff : Int)
    (files : List RecommendationFile) : List RecommendationFile :=
  let oldFiles := files.filter (fun f => decide (f.modified < maxAgeCutoff))
  let excessFiles : Nat := if maxTracks < files.length then files.length - maxTracks else 0
  let filesToRotate := oldFiles
  if oldFiles.length < excessFiles then
    let remainingFiles := files.filter (fun f => !(decide (f ∈ oldFiles)))
    filesToRotate ++
      selectFilesByStrategy shuffle strategy remainingFiles
        ((excessFiles : Int) - (oldFiles.length : Int))
  else filesToRotate

/-- The files `RecommendationsManager.cleanupArchive` (lines 205–251)
deletes: nothing when the archive is disabled or within its cap,
otherwise the `length − archiveMaxTracks` oldest files of the archive
(archive files sorted ascending by modification time). -/
def cleanupArchiveDeleted (enableArchive : Bool) (archiveMaxTracks : Nat)
    (archiveFiles : List RecommendationFile) : List RecommendationFile :=
  if !enableArchive then []
  else if archiveFiles.length ≤ archiveMaxTracks then []
  else (sortAscBy RecommendationFile.modified archiveFiles).take
    (archiveFiles.length - archiveMaxTracks)

/-- The multiset of files remaining in the archive after a
`cleanupArchive` pass in which every individual deletion succeeded: the
sorted list minus the deleted prefix. -/
def cleanupArchiveRemaining (enableArchive : Bool) (archiveMaxTracks : Nat)
    (archiveFiles : List RecommendationFile) : List RecommendationFile :=
  if !enableArchive then archiveFiles
  else if archiveFiles.length ≤ archiveMaxTracks then archiveFiles
  else (sortAscBy RecommendationFile.modified archiveFiles).drop
    (archiveFiles.length - archiveMaxTracks)

/-! Filesystem model for the sidecar-handling claims. A directory is a
list of raw entries (audio files and `.metadata.json` sidecars alike);
the state carries the `current/` and `archive/` directories. Renames and
unlinks act on entry names; names inside one directory are unique on a
real filesystem, and `removeEntry` removes every entry with the name. -/

/-- A raw directory entry: file name, byte size, modification time. -/
structure DirEntry where
  name : List Char
  size : Nat
  modified : Int
deriving DecidableEq, Repr

/-- The two directories `RecommendationsManager` rotates between. -/
structure FsState where
  current : List DirEntry
  archive : List DirEntry
deriving DecidableEq, Repr

/-- Remove the entry with the given name (the effect of `fs.unlink`). -/
def removeEntry (dir : List DirEntry) (name : List Char) : List DirEntry :=
  dir.filter (fun e => !(decide (e.name = name)))

/-- Look up a directory entry by name. -/
def findEntry (dir : List DirEntry) (name : List Char) : Option DirEntry :=
  dir.find? (fun e => decide (e.name = name))

/-- The `.metadata.json` literal. -/
def metadataSuffix : List Char :=
  ['.','m','e','t','a','d','a','t','a','.','j','s','o','n']

/-- Embedding of `RecommendationsManager.getMetadataPath` (lines
626–630) at the filename level: `basename(path, ext)` with `ext` the last
dot-segment of the path strips that segment but keeps the dot (and strips
nothing when the name has no dot, where Node keeps a basename equal to
the extension), then `.metadata.json` is appended. -/
def metadataName (name : List Char) : List Char :=
  let ext := (splitOnChar '.' name).getLastD []
  let base := if ext = name then name else name.take (name.length - ext.length)
  base ++ metadataSuffix

/-- Embedding of `RecommendationsManager.getFileFormat` (lines
579–588): the lower-cased last dot-segment when it is a known audio
extension. -/
def getFileFormat (name : List Char) : Option (List Char) :=
  let extension := ((splitOnChar '.' name).getLastD []).map jsLower
  let audioFormats : List (List Char) :=
    [['m','p','3'], ['f','l','a','c'], ['w','a','v'], ['m','4','a'],
     ['o','g','g'], ['a','a','c'], ['w','m','a']]
  if decide (extension ∈ audioFormats) then some extension else none

/-- Embedding of `RecommendationsManager.getFilesInDirectory` (lines
476–515) on a directory: skip `.metadata.json` sidecars and entries with
no recognised audio format. -/
def getFilesInDirectory (dir : List DirEntry) : List DirEntry :=
  dir.filter (fun e => !(metadataSuffix.isSuffixOf e.name) && (getFileFormat e.name).isSome)

/-- One iteration of `rotateOldTracks`' archive branch (lines 145–169):
rename the file into the archive, then try to rename its sidecar,
ignoring a missing sidecar; a failed file rename (missing file) is caught
and skipped. -/
def rotateOneToArchive (st : FsState) (name : List Char) : FsState :=
  match findEntry st.current name with
  | none => st
  | some e =>
    let st' : FsState :=
      { current := removeEntry st.current name
        archive := removeEntry st.archive name ++ [e] }
    match findEntry st'.current (metadataName name) with
    | none => st'
    | some m =>
      { current := removeEntry st'.current (metadataName name)
        archive := removeEntry st'.archive (metadataName name) ++ [m] }

/-- One iteration of `rotateOldTracks`' delete branch (lines 176–191):
unlink the file, then unlink its sidecar, ignoring a missing sidecar. -/
def rotateOneDelete (st : FsState) (name : List Char) : FsState :=
  match findEntry st.current name with
  | none => st
  | some _ =>
    { st with current :=
        removeEntry (removeEntry st.current name) (metadataName name) }

/-- One iteration of `cleanupArchive`'s deletion loop (lines 224–243):
unlink the archive file, then unlink its sidecar, ignoring a missing
sidecar. -/
def archiveDeleteOne (st : FsState) (name : List Char) : FsState :=
  match findEntry st.archive name with
  | none => st
  | some _ =>
    { st with archive :=
        removeEntry (removeEntry st.archive name) (metadataName name) }

/-- One iteration of `RecommendationsManager.cleanupInvalidFiles`
(lines 445–463) over the inventoried current files: unlink a file smaller
than 1024 bytes. No sidecar handling appears in the source loop. -/
def cleanupInvalidFilesStep (st : FsState) (f : DirEntry) : FsState :=
  if f.size < 1024 then { st with current := removeEntry st.current f.name }
  else st

/-- Embedding of `RecommendationsManager.cleanupInvalidFiles`
(lines 445–463): walk the inventoried current files and delete the
suspiciously small ones. -/
def cleanupInvalidFiles (st : FsState) : FsState :=
  (getFilesInDirectory st.current).foldl cleanupInvalidFilesStep st

/-! Embedding of `SlskdService.searchTrack` (SlskdService.ts 229–440).
The slskd backend is abstracted into an environment giving the outcome of
each network call; a thrown `axios` error, a malformed body and the
`throw` statements of the source are all `err` outcomes. The poll loop
runs `attempts` from 1 to `maxAttempts = 12` with a 5-second sleep before
each status check. -/

/-- Outcome of one `GET /api/v0/searches/{id}` status poll. -/
inductive StatusOutcome
  | err
  | inProgress
  | notComplete
  | complete
deriving DecidableEq, Repr

/-- Outcome of the `GET /api/v0/searches/{id}/responses` fetch: a thrown
error, a non-array body, or the per-user responses (each user optionally
carrying a files array). -/
inductive RespOutcome
  | err
  | notArray
  | responses (rs : List (Option (List CandidateFile) × Option (List Char)))
deriving DecidableEq, Repr

/-- Backend behaviour for one `searchTrack` call: the search-initiation
outcome (an error, or a search id) and the outcome of the polls at each
attempt number. -/
structure SearchEnv where
  init : Option (List Char)
  status : Nat → StatusOutcome
  responses : Nat → RespOutcome

/-- What `searchTrack` returns: the flattened file list and the search id
for later cleanup. -/
structure SearchOutput where
  searchResults : List CandidateFile
  searchId : Option (List Char)
deriving DecidableEq, Repr

/-- Flattening of the `/responses` body (SlskdService.ts 351–391): for
every user response with a files array, push each file tagged with the
responding username. -/
def flattenResponses (rs : List (Option (List CandidateFile) × Option (List Char))) :
    List CandidateFile :=
  rs.foldl (fun acc r =>
    match r.1 with
    | some fs => acc ++ fs.map (fun f => { f with username := r.2 })
    | none => acc) []

/-- The poll loop of `searchTrack` (lines 277–422), by the number of loop
iterations still allowed. Returns the normal result or the internal
exception (`Except.error`), paired with the number of status polls
performed. `attempts` is the source's counter, already incremented for
the current iteration. -/
def searchLoop (env : SearchEnv) (searchId : List Char) (maxAttempts : Nat) :
    Nat → Nat → Except Unit SearchOutput × Nat
  | 0, _ => (Except.ok ⟨[], some searchId⟩, 0)
  | remaining + 1, attempts =>
    let attempts' := attempts + 1
    let next := fun (_ : Unit) =>
      let (r, polls) := searchLoop env searchId maxAttempts remaining attempts'
      (r, polls + 1)
    match env.status attempts' with
    | .err =>
      if maxAttempts ≤ attempts' then (Except.error (), 1) else next ()
    | .inProgress => next ()
    | .notComplete =>
      if attempts' < maxAttempts then next ()
      else (Except.ok ⟨[], some searchId⟩, 1)
    | .complete =>
      match env.responses attempts' with
      | .err =>
        if maxAttempts ≤ attempts' then (Except.error (), 1) else next ()
      | .notArray => (Except.ok ⟨[], some searchId⟩, 1)
      | .responses rs => (Except.ok ⟨flattenResponses rs, some searchId⟩, 1)

/-- The body of `searchTrack` without its outer `try/catch`: initiation
followed by the poll loop, `Except.error` marking an exception in
flight. -/
def searchTrackE (env : SearchEnv) : Except Unit SearchOutput × Nat :=
  match env.init with
  | none => (Except.error (), 0)
  | some searchId => searchLoop env searchId 12 12 0

/-- Embedding of `SlskdService.searchTrack` (lines 229–440): the outer
`catch` turns any in-flight exception into the empty result with a null
search id. The second component counts status polls. -/
def searchTrack (env : SearchEnv) : SearchOutput × Nat :=
  match searchTrackE env with
  | (Except.ok r, polls) => (r, polls)
  | (Except.error _, polls) => (⟨[], none⟩, polls)

/-! Embedding of `SlskdService.downloadTrack` (SlskdService.ts 115–221).
Its callees catch their own network failures and return plain values
(`searchTrack` above never throws; `initiateDownload` and
`waitForDownloadCompletion` return booleans), so the attempt loop is
driven by an environment giving each attempt's search results and
transfer outcomes. The trace records the externally observable
operations; the `markCompleted` / `markFailed` constructors are the
download-tracker vocabulary of the specification (§4.3), which lets
tracker-update claims be stated — the source contains no tracker and
never emits them. -/

/-- Observable events of one `downloadTrack` call. -/
inductive DLEvent
  | search
  | transferRequest
  | waitCompletion
  | cleanupSearches
  | sleepBackoff
  | markCompleted
  | markFailed
deriving DecidableEq, Repr

/-- Per-attempt behaviour of the backend during `downloadTrack`:
the results `searchTrack` comes back with, and whether
`initiateDownload` and `waitForDownloadCompletion` succeed, on each
attempt number. -/
structure DownloadEnv where
  searchResults : Nat → List CandidateFile
  transferOk : Nat → Bool
  completeOk : Nat → Bool

/-- The retry loop of `downloadTrack`, by the number of iterations the
`while (retries < maxDownloadRetries)` guard still allows; `retries` is
the source's counter. Returns the boolean result and the event trace.
The empty-results and no-match attempts `continue` (lines 141–142,
161–162) past the backoff sleep at lines 209–211, so only the
transfer-refused and not-completed attempts record a backoff. -/
def downloadTrackGo (env : DownloadEnv) (track : Track) (maxRetries : Nat) :
    Nat → Nat → Bool × List DLEvent
  | 0, _ => (false, [.cleanupSearches])
  | remaining + 1, retries =>
    let retries' := retries + 1
    let nextAttempt := fun (ev : List DLEvent) =>
      let (res, tail) := downloadTrackGo env track maxRetries remaining retries'
      (res, ev ++ tail)
    let failAttempt := fun (ev : List DLEvent) =>
      nextAttempt (if retries' < maxRetries then ev ++ [.sleepBackoff] else ev)
    let ev : List DLEvent := [.search]
    let searchResults := env.searchResults retries
    if searchResults.isEmpty then nextAttempt ev
    else
      match selectBestMatch searchResults track with
      | none => nextAttempt ev
      | some _ =>
        let ev := ev ++ [.transferRequest]
        if env.transferOk retries then
          let ev := ev ++ [.waitCompletion]
          if env.completeOk retries then (true, ev ++ [.cleanupSearches])
          else failAttempt ev
        else failAttempt ev

/-- Embedding of `SlskdService.downloadTrack` (lines 115–221):
`maxRetries` is `config.maxDownloadRetries`. The call is a pure function
of the backend behaviour — the service object holds no per-track state,
so every invocation for the same track behaves identically. -/
def downloadTrack (env : DownloadEnv) (track : Track) (maxRetries : Nat) :
    Bool × List DLEvent :=
  downloadTrackGo env track maxRetries maxRetries 0

/-- An attempt of `downloadTrack` that comes up empty: no search results,
or no candidate surviving selection, or a transfer that is refused or
never completes. -/
def attemptFails (env : DownloadEnv) (track : Track) (n : Nat) : Prop :=
  env.searchResults n = [] ∨
  selectBestMatch (env.searchResults n) track = none ∨
  env.transferOk n = false ∨
  env.completeOk n = false

/-! Embedding of `MusicSpree.downloadTracks` (core module, lines
367–438): split the track list into chunks of `config.concurrentDownloads`
and, per track, call `SlskdService.downloadTrack`, sorting the track into
the `successful` or `failed` list and pushing one error message per
failure. -/

/-- Embedding of `MusicSpree.chunkArray` (lines 551–557). The source's
`for (i = 0; i < length; i += size)` loop never terminates when
`size = 0`; `concurrentDownloads` is a positive configuration value, and
the zero case is modelled as producing no chunks. -/
def chunkArray (size : Nat) (l : List Track) : List (List Track) :=
  if size = 0 then []
  else if l.isEmpty then []
  else l.take size :: chunkArray size (l.drop size)
termination_by l.length
decreasing_by
  rename_i hs hl
  have hlen : 0 < l.length := by
    cases l with
    | nil => simp at hl
    | cons a as => simp
  have : l.length - size < l.length := Nat.sub_lt hlen (Nat.pos_of_ne_zero hs)
  simpa using this

/-- What one `downloadTrack` call inside `downloadTracks` does for a
track: resolve to a boolean, or throw (the `catch` branch of the
per-track closure). -/
inductive DownloadOutcome
  | ok
  | failed
  | threw (msg : List Char)
deriving DecidableEq, Repr

/-- Accumulated result lists of `downloadTracks`. -/
structure DownloadBatch where
  successful : List Track
  failed : List Track
  errors : List (List Char)
deriving DecidableEq, Repr

/-- The error message pushed for a track `downloadTrack` resolved false
on (line 405). -/
def failMessage (t : Track) : List Char :=
  ['F','a','i','l','e','d',' ','t','o',' ','d','o','w','n','l','o','a','d',':',' ']
    ++ t.artist ++ [' ','-',' '] ++ t.title

/-- The error message pushed for a track whose download threw
(lines 411–413). -/
def throwMessage (t : Track) (msg : List Char) : List Char :=
  ['D','o','w','n','l','o','a','d',' ','e','r','r','o','r',' ','f','o','r',' ']
    ++ t.artist ++ [' ','-',' '] ++ t.title ++ [':',' '] ++ msg

/-- Processing of one track by the per-track closure of `downloadTracks`
(lines 393–417). -/
def downloadTracksStep (outcome : Track → DownloadOutcome) (acc : DownloadBatch)
    (t : Track) : DownloadBatch :=
  match outcome t with
  | .ok => { acc with successful := acc.successful ++ [t] }
  | .failed =>
    { acc with failed := acc.failed ++ [t], errors := acc.errors ++ [failMessage t] }
  | .threw msg =>
    { acc with failed := acc.failed ++ [t], errors := acc.errors ++ [throwMessage t msg] }

/-- Embedding of `MusicSpree.downloadTracks` (lines 367–438):
`size` is `config.concurrentDownloads` and `outcome` the behaviour of
`SlskdService.downloadTrack` per track. Within a chunk the tracks'
promises settle in backend order; the accumulated lists are modelled in
list order, which fixes one interleaving — the claims proved below
concern the counts and the partition, which every interleaving shares. -/
def downloadTracks (outcome : Track → DownloadOutcome) (size : Nat)
    (tracks : List Track) : DownloadBatch :=
  if tracks.isEmpty then ⟨[], [], []⟩
  else
    (chunkArray size tracks).foldl
      (fun acc chunk => chunk.foldl (downloadTracksStep outcome) acc) ⟨[], [], []⟩

/-! Theorems. -/

/-- A backend that never returns search results and refuses every
transfer. -/
def envAllFail : DownloadEnv :=
  ⟨fun _ => [], fun _ => false, fun _ => false⟩

/-- A concrete well-named candidate file. -/
def fileFooBar : CandidateFile :=
  ⟨some ['f','o','o',' ','b','a','r','.','m','p','3'], none, none, some ['u']⟩

/-- A backend that immediately offers a perfect, completing match. -/
def envAllOk : DownloadEnv :=
  ⟨fun _ => [fileFooBar], fun _ => true, fun _ => true⟩

/-- A concrete wanted track. -/
def trackFoo : Track := ⟨['F','o','o'], ['B','a','r']⟩

/-- A track whose artist and title are both words of at most two
characters. -/
def trackU2 : Track := ⟨['U','2'], ['I','t']⟩

/-- A candidate whose normalised filename is exactly the normalised
artist-plus-title of `trackU2`. -/
def fileU2It : CandidateFile := ⟨some ['U','2',' ','-',' ','I','t'], none, none, none⟩

/-- A candidate whose normalised filename is exactly the normalised
artist-plus-title of `trackFoo`. -/
def fileFooBarExact : CandidateFile :=
  ⟨some ['F','o','o',' ','-',' ','B','a','r'], none, none, none⟩

/-- A track whose artist is a two-character word while only its title
contributes a word longer than two characters. -/
def trackU2Run : Track := ⟨['U','2'], ['R','u','n']⟩

/-- A candidate whose normalised filename is exactly the normalised
artist-plus-title of `trackU2Run`. -/
def fileU2Run : CandidateFile :=
  ⟨some ['U','2',' ','-',' ','R','u','n'], none, none, none⟩

/-- A candidate whose size field is present but zero. -/
def fileZeroSize : CandidateFile := ⟨some ['a','.','m','p','3'], some 0, none, none⟩

/-- A candidate with a present, positive bitrate below the 128 kbps
floor. -/
def fileLowBitrate : CandidateFile := ⟨some ['a','.','m','p','3'], none, some 64, none⟩

/-- A candidate with no bitrate and no size information. -/
def fileUnknownFields : CandidateFile := ⟨some ['a','.','o','g','g'], none, none, none⟩

/-- A current directory holding one undersized audio file together with
its sidecar. -/
def stOrphan : FsState :=
  ⟨[⟨['s','o','n','g','.','m','p','3'], 100, 0⟩,
    ⟨metadataName ['s','o','n','g','.','m','p','3'], 50, 0⟩], []⟩

/-- A backend whose every status poll throws. -/
def envPollErr : SearchEnv :=
  ⟨some ['i','d'], fun _ => StatusOutcome.err, fun _ => RespOutcome.err⟩

/-- Three collection files, two of them old. -/
def filesThree : List RecommendationFile :=
  [⟨['a'], 1, 0⟩, ⟨['b'], 1, 5⟩, ⟨['c'], 1, 20⟩]

theorem calculateMatchScore_fileFooBar : calculateMatchScore fileFooBar trackFoo = 1 := by
  have h1 : includesStr (normalizeStr ['f','o','o',' ','b','a','r','.','m','p','3'])
      (normalizeStr ['F','o','o']) = true := by decide
  have h2 : includesStr (normalizeStr ['f','o','o',' ','b','a','r','.','m','p','3'])
      (normalizeStr ['B','a','r']) = true := by decide
  have h3 : (splitOnChar ' ' (normalizeStr ['F','o','o'])).filter
      (fun w => 2 < w.length) = [['f','o','o']] := by decide
  have h4 : (splitOnChar ' ' (normalizeStr ['B','a','r'])).filter
      (fun w => 2 < w.length) = [['b','a','r']] := by decide
  have h5 : includesStr (normalizeStr ['f','o','o',' ','b','a','r','.','m','p','3'])
      ['f','o','o'] = true := by decide
  have h6 : includesStr (normalizeStr ['f','o','o',' ','b','a','r','.','m','p','3'])
      ['b','a','r'] = true := by decide
  have h7 : endsWithCI ('.' :: ['f','l','a','c']) ['f','o','o',' ','b','a','r','.','m','p','3']
      = false := by decide
  have h8 : endsWithCI ('.' :: ['w','a','v']) ['f','o','o',' ','b','a','r','.','m','p','3']
      = false := by decide
  have h9 : endsWithCI ('.' :: ['m','p','3']) ['f','o','o',' ','b','a','r','.','m','p','3']
      = true := by decide
  simp only [calculateMatchScore, fileFooBar, trackFoo, Option.getD,
    h1, h2, h3, h4, h5, h6, h7, h8, h9]
  norm_num [List.filter_cons, List.filter_nil, h5, h6]

theorem selectBestMatch_fileFooBar :
    selectBestMatch [fileFooBar] trackFoo = some fileFooBar := by
  have hq : isAcceptableQuality fileFooBar = true := by decide
  simp [selectBestMatch, sortDescBy, sortAscBy, insertAscBy,
    calculateMatchScore_fileFooBar, hq, List.filter]
  norm_num

theorem downloadTrackGo_of_attemptFails (env : DownloadEnv) (track : Track)
    (maxRetries : Nat) (h : ∀ n, attemptFails env track n) :
    ∀ remaining retries,
      (downloadTrackGo env track maxRetries remaining retries).1 = false ∧
      ((downloadTrackGo env track maxRetries remaining retries).2).count DLEvent.search
        = remaining := by
  intro remaining
  induction remaining with
  | zero => intro retries; constructor <;> rfl
  | succ rem ih =>
    intro retries
    have hfail := h retries
    simp only [downloadTrackGo]
    rcases hempty : (env.searchResults retries).isEmpty with _ | _
    · -- search produced results
      have hne : env.searchResults retries ≠ [] := by
        intro hcon; rw [hcon] at hempty; simp at hempty
      rcases hsel : selectBestMatch (env.searchResults retries) track with _ | best
      · simp only [hempty, Bool.false_eq_true, if_false, hsel]
        refine ⟨(ih (retries + 1)).1, ?_⟩
        simp [List.count_append, (ih (retries + 1)).2, List.count_cons,
          Nat.add_comm]
      · rcases htr : env.transferOk retries with _ | _
        · simp only [hempty, Bool.false_eq_true, if_false, hsel, htr]
          refine ⟨(ih (retries + 1)).1, ?_⟩
          by_cases hlt : retries + 1 < maxRetries <;>
            simp [hlt, List.count_append, (ih (retries + 1)).2, List.count_cons,
              Nat.add_comm]
        · have hco : env.completeOk retries = false := by
            rcases hfail with h1 | h2 | h3 | h4
            · exact absurd h1 hne
            · rw [hsel] at h2; exact absurd h2 (by simp)
            · rw [htr] at h3; exact absurd h3 (by simp)
            · exact h4
          simp only [hempty, Bool.false_eq_true, if_false, hsel, htr, hco]
          refine ⟨(ih (retries + 1)).1, ?_⟩
          by_cases hlt : retries + 1 < maxRetries <;>
            simp [hlt, List.count_append, (ih (retries + 1)).2, List.count_cons,
              Nat.add_comm]
    · -- empty search results
      simp only [hempty, if_true]
      refine ⟨(ih (retries + 1)).1, ?_⟩
      simp [List.count_append, (ih (retries + 1)).2, List.count_cons,
        Nat.add_comm]

/-- C1, counterexample: with `maxDownloadRetries = 3` and a backend that
never returns search results, `downloadTrack` does return false after
exactly 3 attempts, but it records nothing anywhere — no tracker exists
in `SlskdService`, so no `markFailed` operation ever happens, and the
claim's conjunction fails at this input. -/
theorem downloadTrack_no_failed_record :
    ¬((downloadTrack envAllFail trackFoo 3).1 = false ∧
      ((downloadTrack envAllFail trackFoo 3).2).count DLEvent.search = 3 ∧
      DLEvent.markFailed ∈ (downloadTrack envAllFail trackFoo 3).2) := by
  decide

/-- C1 (amended): for every track and backend behaviour in which every
attempt yields no search results, no acceptable candidate, or a failed
transfer, `downloadTrack` returns false after exactly
`maxDownloadRetries` attempts (one search per attempt). The source keeps
no tracker, so nothing is recorded as Failed. -/
theorem downloadTrack_exhausts_retries (env : DownloadEnv) (track : Track)
    (maxRetries : Nat) (h : ∀ n, attemptFails env track n) :
    (downloadTrack env track maxRetries).1 = false ∧
    ((downloadTrack env track maxRetries).2).count DLEvent.search = maxRetries :=
  downloadTrackGo_of_attemptFails env track maxRetries h maxRetries 0

/-- C1, witness: the amended theorem applied to the all-failing backend
with three allowed attempts. -/
theorem downloadTrack_exhausts_retries_witness :
    (downloadTrack envAllFail trackFoo 3).1 = false ∧
    ((downloadTrack envAllFail trackFoo 3).2).count DLEvent.search = 3 :=
  downloadTrack_exhausts_retries envAllFail trackFoo 3 (fun _ => Or.inl rfl)

/-- C2, counterexample: against a backend offering an immediately
successful download, `downloadTrack` returns true — the track's
acquisition has completed successfully within the process lifetime — yet
the very same call repeated (the function is pure in the backend
behaviour: `SlskdService` holds no per-track state) again performs a
search network call, where the claim requires a subsequent call to return
true with no search at all. -/
theorem downloadTrack_repeat_still_searches :
    (downloadTrack envAllOk trackFoo 5).1 = true ∧
    DLEvent.search ∈ (downloadTrack envAllOk trackFoo 5).2 := by
  simp [downloadTrack, downloadTrackGo, envAllOk, selectBestMatch_fileFooBar]

theorem downloadTrackGo_performs_search (env : DownloadEnv) (track : Track)
    (maxRetries rem retries : Nat) :
    DLEvent.search ∈ (downloadTrackGo env track maxRetries (rem + 1) retries).2 := by
  simp only [downloadTrackGo]
  rcases (env.searchResults retries).isEmpty with _ | _ <;>
    rcases selectBestMatch (env.searchResults retries) track with _ | _ <;>
    rcases env.transferOk retries with _ | _ <;>
    rcases env.completeOk retries with _ | _ <;>
    simp <;> split <;> simp

/-- C2 (amended): `SlskdService` keeps no record of completed downloads:
`downloadTrack` is stateless across calls, and every invocation with a
positive retry budget — including a repeat call for a track already
downloaded successfully — performs at least one search network call
instead of returning from a cache. -/
theorem downloadTrack_always_searches (env : DownloadEnv) (track : Track)
    (maxRetries : Nat) (h : 1 ≤ maxRetries) :
    DLEvent.search ∈ (downloadTrack env track maxRetries).2 := by
  obtain ⟨rem, hrem⟩ : ∃ rem, maxRetries = rem + 1 :=
    ⟨maxRetries - 1, (Nat.succ_pred_eq_of_pos h).symm⟩
  rw [downloadTrack, hrem]
  exact downloadTrackGo_performs_search env track (rem + 1) rem 0

/-- C2, witness: the amended theorem applied to the all-failing backend
with one allowed attempt. -/
theorem downloadTrack_always_searches_witness :
    DLEvent.search ∈ (downloadTrack envAllFail trackFoo 1).2 :=
  downloadTrack_always_searches envAllFail trackFoo 1 (by decide)

/-- C4, counterexample: the claim requires any file smaller than 1 MiB to
be rejected; this file's size is present and equal to 0 bytes — smaller
than 1 MiB — yet the JS truthiness guard `file.size && file.size < 1MiB`
skips the zero value and `isAcceptableQuality` accepts the file. -/
theorem isAcceptableQuality_zero_size_accepted :
    fileZeroSize.size = some 0 ∧ (0 : Nat) < 1024 * 1024 ∧
    isAcceptableQuality fileZeroSize = true := by
  decide

/-- C4 (amended): `isAcceptableQuality` returns false whenever the
bitrate is present, nonzero and below 128 kbps, or the size is present,
nonzero and below 1 MiB, regardless of filename; and when both fields are
absent the verdict is exactly the extension check, so absent (or zero,
by JS truthiness) fields never cause rejection. -/
theorem isAcceptableQuality_floors (file : CandidateFile) :
    (((∃ b, file.bitRate = some b ∧ 0 < b ∧ b < 128) ∨
      (∃ s, file.size = some s ∧ 0 < s ∧ s < 1024 * 1024)) →
        isAcceptableQuality file = false) ∧
    (file.bitRate = none → file.size = none →
      isAcceptableQuality file = hasAudioExt file.filename) := by
  constructor
  · intro h
    unfold isAcceptableQuality
    split
    · rfl
    · split
      · rfl
      · split
        · rfl
        · rename_i hext hbr hsz
          exfalso
          rcases h with ⟨b, hb, hb0, hb128⟩ | ⟨s, hs, hs0, hsM⟩
          · rw [hb] at hbr; simp [hb0, hb128] at hbr
          · rw [hs] at hsz; simp [hs0, hsM] at hsz
  · intro hbr hsz
    unfold isAcceptableQuality
    rw [hbr, hsz]
    rcases h : hasAudioExt file.filename with _ | _ <;> simp [h]

/-- C4, witness: the amended theorem applied to a 64 kbps candidate and a
candidate with unknown bitrate and size. -/
theorem isAcceptableQuality_floors_witness :
    isAcceptableQuality fileLowBitrate = false ∧
    isAcceptableQuality fileUnknownFields = hasAudioExt fileUnknownFields.filename :=
  ⟨(isAcceptableQuality_floors fileLowBitrate).1
      (Or.inl ⟨64, rfl, by decide, by decide⟩),
   (isAcceptableQuality_floors fileUnknownFields).2 rfl rfl⟩

/-- C8: evaluation at the failing input. Running `cleanupInvalidFiles`
over a current directory holding a 100-byte `song.mp3` together with its
sidecar deletes the audio file but leaves the sidecar in place — an
orphaned sidecar, where the specification's invariant requires sidecar
deletion to accompany every file deletion. -/
theorem cleanupInvalidFiles_orphans_sidecar :
    findEntry (cleanupInvalidFiles stOrphan).current ['s','o','n','g','.','m','p','3'] = none ∧
    (findEntry (cleanupInvalidFiles stOrphan).current
      (metadataName ['s','o','n','g','.','m','p','3'])).isSome = true := by
  decide

theorem searchLoop_polls_le (env : SearchEnv) (searchId : List Char)
    (maxAttempts : Nat) :
    ∀ rem attempts, (searchLoop env searchId maxAttempts rem attempts).2 ≤ rem := by
  intro rem
  induction rem with
  | zero => intro attempts; exact Nat.le_refl 0
  | succ rem ih =>
    intro attempts
    simp only [searchLoop]
    rcases hst : env.status (attempts + 1) with _ | _ | _ | _ <;> simp only [hst]
    · split
      · exact Nat.le_add_left 1 rem
      · exact Nat.succ_le_succ (ih (attempts + 1))
    · exact Nat.succ_le_succ (ih (attempts + 1))
    · split
      · exact Nat.succ_le_succ (ih (attempts + 1))
      · exact Nat.le_add_left 1 rem
    · rcases hrs : env.responses (attempts + 1) with _ | _ | rs <;> simp only [hrs]
      · split
        · exact Nat.le_add_left 1 rem
        · exact Nat.succ_le_succ (ih (attempts + 1))
      · exact Nat.le_add_left 1 rem
      · exact Nat.le_add_left 1 rem

theorem searchLoop_no_complete (env : SearchEnv) (searchId : List Char)
    (maxAttempts : Nat) (h : ∀ n, env.status n ≠ StatusOutcome.complete) :
    ∀ rem attempts r,
      (searchLoop env searchId maxAttempts rem attempts).1 = Except.ok r →
      r.searchResults = [] := by
  intro rem
  induction rem with
  | zero =>
    intro attempts r hr
    simp only [searchLoop] at hr
    cases hr
    rfl
  | succ rem ih =>
    intro attempts r hr
    simp only [searchLoop] at hr
    rcases hst : env.status (attempts + 1) with _ | _ | _ | _ <;>
      simp only [hst] at hr
    · split at hr
      · cases hr
      · exact ih (attempts + 1) r hr
    · exact ih (attempts + 1) r hr
    · split at hr
      · exact ih (attempts + 1) r hr
      · cases hr; rfl
    · exact absurd hst (h (attempts + 1))

/-- C9: for every backend behaviour, `searchTrack` performs at most 12
status polls — the `maxAttempts = 12` budget of its 5-second poll loop —
and never lets an exception escape: an internal exception (a failed
network call, a missing search id, a rethrown poll error) yields the
empty result with a null id, and a backend that never reports the search
complete yields an empty result list. -/
theorem searchTrack_bounded_safe (env : SearchEnv) :
    (searchTrack env).2 ≤ 12 ∧
    ((searchTrackE env).1 = Except.error () →
      (searchTrack env).1 = ⟨[], none⟩) ∧
    ((∀ n, env.status n ≠ StatusOutcome.complete) →
      (searchTrack env).1.searchResults = []) := by
  refine ⟨?_, ?_, ?_⟩
  · unfold searchTrack searchTrackE
    rcases hinit : env.init with _ | searchId <;> simp only [hinit]
    · exact Nat.zero_le 12
    · have hp := searchLoop_polls_le env searchId 12 12 0
      rcases hres : searchLoop env searchId 12 12 0 with ⟨r | r, polls⟩ <;>
        simp only [hres] <;> rw [hres] at hp <;> simpa using hp
  · intro herr
    unfold searchTrack
    rcases hres : searchTrackE env with ⟨r | r, polls⟩
    · simp [hres]
    · rw [hres] at herr
      simp at herr
  · intro h
    unfold searchTrack searchTrackE
    rcases hinit : env.init with _ | searchId
    · simp [hinit]
    · simp only [hinit]
      rcases hres : searchLoop env searchId 12 12 0 with ⟨r | r, polls⟩
      · simp [hres]
      · have hno := searchLoop_no_complete env searchId 12 h 12 0 r
        rw [hres] at hno
        simp only [hres]
        exact hno rfl

/-- C9, witness: the theorem applied to a backend whose every poll
throws; the rethrow on the twelfth attempt is caught by the outer
handler and the caller sees the empty result. -/
theorem searchTrack_bounded_safe_witness :
    (searchTrack envPollErr).2 ≤ 12 ∧
    (searchTrack envPollErr).1 = ⟨[], none⟩ ∧
    (searchTrack envPollErr).1.searchResults = [] :=
  ⟨(searchTrack_bounded_safe envPollErr).1,
   (searchTrack_bounded_safe envPollErr).2.1 (by rfl),
   (searchTrack_bounded_safe envPollErr).2.2 (by intro n hc; simp [envPollErr] at hc)⟩

theorem chunkArray_flatten (size : Nat) (h : 0 < size) (l : List Track) :
    (chunkArray size l).flatten = l := by
  induction l using chunkArray.induct size with
  | case1 l hs => omega
  | case2 l hs hl => rw [chunkArray]; simp [hs, List.isEmpty_iff.mp hl]
  | case3 l hs hl ih => rw [chunkArray]; simp only [hs, hl, if_false]; simp [ih]

theorem downloadTracksStep_foldl_perm (outcome : Track → DownloadOutcome) :
    ∀ (l : List Track) (acc : DownloadBatch),
      List.Perm
        ((l.foldl (downloadTracksStep outcome) acc).successful ++
          (l.foldl (downloadTracksStep outcome) acc).failed)
        ((acc.successful ++ acc.failed) ++ l) := by
  intro l
  induction l with
  | nil => intro acc; simp
  | cons t ts ih =>
    intro acc
    rw [List.foldl_cons]
    refine (ih (downloadTracksStep outcome acc t)).trans ?_
    rcases hout : outcome t with _ | _ | msg <;>
      simp only [downloadTracksStep, hout, List.append_assoc, List.cons_append,
        List.nil_append, List.singleton_append]
    · exact List.Perm.append_left acc.successful List.perm_middle.symm
    · exact List.Perm.refl _
    · exact List.Perm.refl _

theorem downloadTracksStep_foldl_errors (outcome : Track → DownloadOutcome) :
    ∀ (l : List Track) (acc : DownloadBatch),
      (l.foldl (downloadTracksStep outcome) acc).failed.length + acc.errors.length =
        (l.foldl (downloadTracksStep outcome) acc).errors.length + acc.failed.length := by
  intro l
  induction l with
  | nil => intro acc; simp only [List.foldl_nil]; omega
  | cons t ts ih =>
    intro acc
    rw [List.foldl_cons]
    have h2 := ih (downloadTracksStep outcome acc t)
    rcases hout : outcome t with _ | _ | msg <;>
      simp only [downloadTracksStep, hout, List.length_append, List.length_cons,
        List.length_nil] at h2 ⊢ <;> omega

/-- C10: for every input list, every track lands in exactly one of the
`successful` and `failed` lists of `downloadTracks` — together they are a
permutation of the input, so the lengths add up to the input length — and
each failed track pushes exactly one entry onto `errors`. -/
theorem downloadTracks_partition (outcome : Track → DownloadOutcome) (size : Nat)
    (tracks : List Track) (h : 0 < size) :
    List.Perm ((downloadTracks outcome size tracks).successful ++
        (downloadTracks outcome size tracks).failed) tracks ∧
    (downloadTracks outcome size tracks).successful.length +
        (downloadTracks outcome size tracks).failed.length = tracks.length ∧
    (downloadTracks outcome size tracks).errors.length =
      (downloadTracks outcome size tracks).failed.length := by
  have key : List.Perm ((downloadTracks outcome size tracks).successful ++
        (downloadTracks outcome size tracks).failed) tracks ∧
      (downloadTracks outcome size tracks).errors.length =
        (downloadTracks outcome size tracks).failed.length := by
    unfold downloadTracks
    rcases hem : tracks.isEmpty with _ | _
    · simp only [hem, Bool.false_eq_true, if_false]
      rw [← List.foldl_flatten, chunkArray_flatten size h tracks]
      refine ⟨?_, ?_⟩
      · simpa using downloadTracksStep_foldl_perm outcome tracks ⟨[], [], []⟩
      · have := downloadTracksStep_foldl_errors outcome tracks ⟨[], [], []⟩
        simpa using this.symm
    · rw [List.isEmpty_iff.mp hem]
      simp
  refine ⟨key.1, ?_, key.2⟩
  simpa using key.1.length_eq

/-- C10, witness: the theorem applied to a two-track batch with
concurrency 1 in which one download succeeds and one fails. -/
theorem downloadTracks_partition_witness :
    List.Perm ((downloadTracks (fun t => if t = trackFoo then DownloadOutcome.ok
        else DownloadOutcome.failed) 1 [trackFoo, trackU2]).successful ++
      (downloadTracks (fun t => if t = trackFoo then DownloadOutcome.ok
        else DownloadOutcome.failed) 1 [trackFoo, trackU2]).failed) [trackFoo, trackU2] ∧
    (downloadTracks (fun t => if t = trackFoo then DownloadOutcome.ok
        else DownloadOutcome.failed) 1 [trackFoo, trackU2]).successful.length +
      (downloadTracks (fun t => if t = trackFoo then DownloadOutcome.ok
        else DownloadOutcome.failed) 1 [trackFoo, trackU2]).failed.length = 2 ∧
    (downloadTracks (fun t => if t = trackFoo then DownloadOutcome.ok
        else DownloadOutcome.failed) 1 [trackFoo, trackU2]).errors.length =
      (downloadTracks (fun t => if t = trackFoo then DownloadOutcome.ok
        else DownloadOutcome.failed) 1 [trackFoo, trackU2]).failed.length :=
  downloadTracks_partition (fun t => if t = trackFoo then DownloadOutcome.ok
    else DownloadOutcome.failed) 1 [trackFoo, trackU2] (by decide)

section StableSortLemmas

variable {α : Type} {β : Type} {γ : Type} [LinearOrder β]

theorem insertAscBy_perm (key : α → β) (x : α) (l : List α) :
    List.Perm (insertAscBy key x l) (x :: l) := by
  induction l with
  | nil => exact List.Perm.refl _
  | cons y ys ih =>
    rw [insertAscBy]
    split
    · exact (ih.cons y).trans (List.Perm.swap x y ys)
    · exact List.Perm.refl _

theorem sortAscBy_perm (key : α → β) (l : List α) :
    List.Perm (sortAscBy key l) l := by
  induction l with
  | nil => exact List.Perm.refl _
  | cons x xs ih =>
    rw [sortAscBy]
    exact (insertAscBy_perm key x _).trans (ih.cons x)

theorem pairwise_insertAscBy (key : α → β) (x : α) (l : List α)
    (h : l.Pairwise (fun a b => key a ≤ key b)) :
    (insertAscBy key x l).Pairwise (fun a b => key a ≤ key b) := by
  induction l with
  | nil => simp [insertAscBy]
  | cons y ys ih =>
    rw [List.pairwise_cons] at h
    obtain ⟨hy, hys⟩ := h
    rw [insertAscBy]
    by_cases hlt : key y < key x
    · rw [if_pos hlt, List.pairwise_cons]
      refine ⟨?_, ih hys⟩
      intro z hz
      rcases List.mem_cons.mp ((insertAscBy_perm key x ys).mem_iff.mp hz) with rfl | hz'
      · exact le_of_lt hlt
      · exact hy z hz'
    · rw [if_neg hlt, List.pairwise_cons]
      refine ⟨?_, List.pairwise_cons.mpr ⟨hy, hys⟩⟩
      intro z hz
      rcases List.mem_cons.mp hz with rfl | hz'
      · exact le_of_not_lt hlt
      · exact le_trans (le_of_not_lt hlt) (hy z hz')

theorem pairwise_sortAscBy (key : α → β) (l : List α) :
    (sortAscBy key l).Pairwise (fun a b => key a ≤ key b) := by
  induction l with
  | nil => simp [sortAscBy]
  | cons x xs ih => exact pairwise_insertAscBy key x _ ih

theorem insertAscBy_eq_cons (key : α → β) (x : α) (l : List α)
    (h : ∀ z ∈ l, ¬ key z < key x) :
    insertAscBy key x l = x :: l := by
  cases l with
  | nil => rfl
  | cons y ys => rw [insertAscBy, if_neg (h y (List.mem_cons_self y ys))]

theorem filter_insertAscBy (key : α → β) (p : α → Bool) (x : α) (l : List α)
    (h : l.Pairwise (fun a b => key a ≤ key b)) :
    (insertAscBy key x l).filter p =
      if p x then insertAscBy key x (l.filter p) else l.filter p := by
  induction l with
  | nil =>
    rcases hp : p x with _ | _ <;>
      simp [insertAscBy, List.filter_cons, hp]
  | cons y ys ih =>
    rw [List.pairwise_cons] at h
    obtain ⟨hy, hys⟩ := h
    rw [insertAscBy]
    by_cases hlt : key y < key x
    · rw [if_pos hlt]
      rcases hp : p y with _ | _ <;> rcases hpx : p x with _ | _ <;>
        simp only [List.filter_cons, hp, hpx, if_true, if_false, ih hys,
          Bool.false_eq_true, insertAscBy, if_pos hlt]
    · rw [if_neg hlt]
      rcases hpx : p x with _ | _
      · simp only [List.filter_cons, hpx, if_false, Bool.false_eq_true]
      · have hall : ∀ z ∈ (y :: ys).filter p, ¬ key z < key x := by
          intro z hz
          have hzmem := (List.mem_filter.mp hz).1
          have hxy := le_of_not_lt hlt
          rcases List.mem_cons.mp hzmem with rfl | hz'
          · exact not_lt.mpr hxy
          · exact not_lt.mpr (hxy.trans (hy z hz'))
        rw [insertAscBy_eq_cons key x _ hall]
        simp only [List.filter_cons, hpx, if_true]

theorem filter_sortAscBy (key : α → β) (p : α → Bool) (l : List α) :
    (sortAscBy key l).filter p = sortAscBy key (l.filter p) := by
  induction l with
  | nil => rfl
  | cons x xs ih =>
    rw [sortAscBy, filter_insertAscBy key p x _ (pairwise_sortAscBy key xs), ih]
    rcases hp : p x with _ | _ <;> simp [List.filter_cons, hp, sortAscBy]

theorem head?_insertAscBy (key : α → β) (x : α) (l : List α) :
    (insertAscBy key x l).head? =
      match l with
      | [] => some x
      | y :: _ => if key y < key x then some y else some x := by
  cases l with
  | nil => rfl
  | cons y ys =>
    rw [insertAscBy]
    by_cases h : key y < key x <;> simp [h]

theorem head?_sortAscBy (key : α → β) (l : List α) :
    (sortAscBy key l).head? = firstMinBy key l := by
  induction l with
  | nil => rfl
  | cons x xs ih =>
    rw [sortAscBy, firstMinBy, head?_insertAscBy, ← ih]
    cases hs : sortAscBy key xs with
    | nil => rfl
    | cons y ys => rfl

theorem firstMinBy_dual (key : α → β) (l : List α) :
    firstMinBy (fun a => OrderDual.toDual (key a)) l = firstMaxBy key l := by
  induction l with
  | nil => rfl
  | cons x xs ih =>
    rw [firstMinBy, firstMaxBy, ih]
    cases firstMaxBy key xs with
    | none => rfl
    | some m => simp only [OrderDual.toDual_lt_toDual]

theorem sortDescBy_perm (key : α → β) (l : List α) :
    List.Perm (sortDescBy key l) l :=
  sortAscBy_perm _ l

theorem filter_sortDescBy (key : α → β) (p : α → Bool) (l : List α) :
    (sortDescBy key l).filter p = sortDescBy key (l.filter p) :=
  filter_sortAscBy _ p l

theorem head?_sortDescBy (key : α → β) (l : List α) :
    (sortDescBy key l).head? = firstMaxBy key l :=
  (head?_sortAscBy _ l).trans (firstMinBy_dual key l)

theorem firstMaxBy_map (key : γ → β) (g : α → γ) (l : List α) :
    firstMaxBy key (l.map g) = Option.map g (firstMaxBy (fun a => key (g a)) l) := by
  induction l with
  | nil => rfl
  | cons x xs ih =>
    rw [List.map_cons, firstMaxBy, firstMaxBy, ih]
    cases firstMaxBy (fun a => key (g a)) xs with
    | none => rfl
    | some m => by_cases h : key (g x) < key (g m) <;> simp [h]

theorem firstMaxBy_isSome (key : α → β) (x : α) (xs : List α) :
    (firstMaxBy key (x :: xs)).isSome = true := by
  rw [firstMaxBy]
  cases firstMaxBy key xs with
  | none => rfl
  | some m => by_cases h : key x < key m <;> simp [h]

end StableSortLemmas

theorem selectBestMatch_filter_swap (l : List CandidateFile) (t : Track) (c : ℚ) :
    ((sortDescBy Prod.snd (l.map fun f => (f, calculateMatchScore f t))).filter
        (fun r => decide (c < r.2) && isAcceptableQuality r.1)) =
      sortDescBy Prod.snd ((l.filter fun f =>
        decide (c < calculateMatchScore f t) && isAcceptableQuality f).map
          (fun f => (f, calculateMatchScore f t))) := by
  rw [filter_sortDescBy]
  congr 1
  rw [List.filter_map]
  rfl

theorem sortDescBy_nil {α β : Type} [LinearOrder β] (key : α → β) :
    sortDescBy key [] = [] := rfl

theorem firstMaxBy_nil {α β : Type} [LinearOrder β] (key : α → β) :
    firstMaxBy key [] = none := rfl

theorem selectBestMatch_head_firstMax (l : List CandidateFile) (t : Track) :
    (sortDescBy Prod.snd (l.map fun f => (f, calculateMatchScore f t))).head? =
      Option.map (fun f => (f, calculateMatchScore f t))
        (firstMaxBy (fun f => calculateMatchScore f t) l) := by
  rw [head?_sortDescBy, firstMaxBy_map]

/-- C5: `selectBestMatch` computes exactly the specification's two-tier
choice: among acceptable candidates scoring strictly above 0.5 it returns
the one of maximal score, the first-seen winning ties; failing that, the
same among acceptable candidates scoring strictly above 0.3; failing
that, `null`. -/
theorem selectBestMatch_eq_spec (l : List CandidateFile) (t : Track) :
    selectBestMatch l t = specSelectBestMatch l t := by
  unfold selectBestMatch specSelectBestMatch
  rcases hl : l.isEmpty with _ | _
  · simp only [Bool.false_eq_true, if_false]
    rw [selectBestMatch_filter_swap l t (1/2)]
    cases h1 : (l.filter fun f =>
        decide ((1:ℚ)/2 < calculateMatchScore f t) && isAcceptableQuality f) with
    | nil =>
      simp only [List.map_nil, sortDescBy_nil, firstMaxBy_nil]
      rw [selectBestMatch_filter_swap l t (3/10)]
      cases h2 : (l.filter fun f =>
          decide ((3:ℚ)/10 < calculateMatchScore f t) && isAcceptableQuality f) with
      | nil =>
        simp only [List.map_nil, sortDescBy_nil, firstMaxBy_nil]
      | cons f fs =>
        cases hm : firstMaxBy (fun f => calculateMatchScore f t) (f :: fs) with
        | none =>
          have := firstMaxBy_isSome (fun f => calculateMatchScore f t) f fs
          rw [hm] at this
          cases this
        | some m =>
          have hh := selectBestMatch_head_firstMax (f :: fs) t
          rw [hm] at hh
          cases hq : sortDescBy Prod.snd
              ((f :: fs).map fun f => (f, calculateMatchScore f t)) with
          | nil => rw [hq] at hh; cases hh
          | cons r rs =>
            rw [hq] at hh
            simp only [List.head?_cons, Option.map_some] at hh
            cases hh
            rfl
    | cons f fs =>
      cases hm : firstMaxBy (fun f => calculateMatchScore f t) (f :: fs) with
      | none =>
        have := firstMaxBy_isSome (fun f => calculateMatchScore f t) f fs
        rw [hm] at this
        cases this
      | some m =>
        have hh := selectBestMatch_head_firstMax (f :: fs) t
        rw [hm] at hh
        cases hq : sortDescBy Prod.snd
            ((f :: fs).map fun f => (f, calculateMatchScore f t)) with
        | nil => rw [hq] at hh; cases hh
        | cons r rs =>
          rw [hq] at hh
          simp only [List.head?_cons, Option.map_some] at hh
          cases hh
          rfl
  · rw [List.isEmpty_iff.mp hl]
    simp [firstMaxBy]

theorem selectFilesByStrategy_subset (shuffle : List RecommendationFile → List RecommendationFile)
    (strategy : RotationStrategy) (files : List RecommendationFile) (count : Int)
    (hshuffle : List.Perm (shuffle files) files) :
    ∀ z ∈ selectFilesByStrategy shuffle strategy files count, z ∈ files := by
  intro z hz
  unfold selectFilesByStrategy at hz
  split at hz
  · cases hz
  · have hz2 := List.take_subset _ _ hz
    rcases strategy with _ | _ | _ | _
    · exact (sortAscBy_perm _ files).mem_iff.mp hz2
    · exact hshuffle.mem_iff.mp hz2
    · exact (sortAscBy_perm _ files).mem_iff.mp hz2
    · exact (sortAscBy_perm _ files).mem_iff.mp hz2

theorem selectFilesByStrategy_length (shuffle : List RecommendationFile → List RecommendationFile)
    (strategy : RotationStrategy) (files : List RecommendationFile) (count : Int)
    (hshuffle : List.Perm (shuffle files) files)
    (hc : 0 < count) (hne : files ≠ []) :
    (selectFilesByStrategy shuffle strategy files count).length
      = min count.toNat files.length := by
  have hcond : (decide (count ≤ 0) || files.isEmpty) = false := by
    simp [List.isEmpty_iff, hne]
    omega
  unfold selectFilesByStrategy
  rw [hcond]
  simp only [Bool.false_eq_true, if_false, List.length_take]
  congr 1
  rcases strategy with _ | _ | _ | _ <;>
    simp [(sortAscBy_perm (RecommendationFile.modified) files).length_eq,
      hshuffle.length_eq]

/-- C6: over a collection of `M` files with count cap `maxTracks = N`,
`M > N`, and age cutoff `maxAgeCutoff`, `selectFilesForRotation` (with a
permuting shuffle for the `random` strategy) selects at least `M − N`
files, and the number of selected files not older than the cutoff is
exactly the shortfall `max 0 ((M − N) − #old)` — young files are selected
only as far as required to bring the remaining count down to the cap. -/
theorem selectFilesForRotation_cap
    (shuffle : List RecommendationFile → List RecommendationFile)
    (strategy : RotationStrategy) (maxTracks : Nat) (maxAgeCutoff : Int)
    (files : List RecommendationFile)
    (hshuffle : ∀ l, List.Perm (shuffle l) l)
    (hM : maxTracks < files.length) :
    files.length - maxTracks ≤
      (selectFilesForRotation shuffle strategy maxTracks maxAgeCutoff files).length ∧
    ((selectFilesForRotation shuffle strategy maxTracks maxAgeCutoff files).filter
        (fun f => !(decide (f.modified < maxAgeCutoff)))).length =
      (files.length - maxTracks) -
        (files.filter (fun f => decide (f.modified < maxAgeCutoff))).length := by
  have hrem : files.filter
        (fun f => !(decide (f ∈ files.filter (fun g => decide (g.modified < maxAgeCutoff))))) =
      files.filter (fun f => !(decide (f.modified < maxAgeCutoff))) := by
    apply List.filter_congr
    intro a ha
    have hiff : (a ∈ files.filter (fun g => decide (g.modified < maxAgeCutoff))) ↔
        (a.modified < maxAgeCutoff) := by
      simp [List.mem_filter, ha]
    simp [hiff]
  have hof : (files.filter (fun f => decide (f.modified < maxAgeCutoff))).filter
      (fun f => !(decide (f.modified < maxAgeCutoff))) = [] := by
    rw [List.filter_eq_nil_iff]
    intro a ha
    have := (List.mem_filter.mp ha).2
    simp [this]
  have hlen : (files.filter (fun f => decide (f.modified < maxAgeCutoff))).length +
      (files.filter (fun f => !(decide (f.modified < maxAgeCutoff)))).length =
      files.length := by
    have hp := List.filter_append_perm
      (fun f => decide (f.modified < maxAgeCutoff)) files
    simpa using hp.length_eq
  unfold selectFilesForRotation
  rw [if_pos hM]
  by_cases hbranch : (files.filter (fun f => decide (f.modified < maxAgeCutoff))).length <
      files.length - maxTracks
  · rw [if_pos hbranch, hrem]
    have hremne : files.filter (fun f => !(decide (f.modified < maxAgeCutoff))) ≠ [] := by
      intro hcon
      have h0 : (files.filter (fun f => !(decide (f.modified < maxAgeCutoff)))).length = 0 := by
        rw [hcon]
        rfl
      omega
    have hc : (0:Int) <
        ((files.length - maxTracks : Nat) : Int) -
          (((files.filter (fun f => decide (f.modified < maxAgeCutoff))).length : Nat) : Int) := by
      rw [Nat.cast_sub (Nat.le_of_lt hM)]
      omega
    have hslen := selectFilesByStrategy_length shuffle strategy
      (files.filter (fun f => !(decide (f.modified < maxAgeCutoff)))) _
      (hshuffle _) hc hremne
    have htn : (((files.length - maxTracks : Nat) : Int) -
        (((files.filter (fun f => decide (f.modified < maxAgeCutoff))).length : Nat) : Int)).toNat
        = files.length - maxTracks -
          (files.filter (fun f => decide (f.modified < maxAgeCutoff))).length := by
      rw [Nat.cast_sub (Nat.le_of_lt hM)]
      omega
    have hminle : files.length - maxTracks -
          (files.filter (fun f => decide (f.modified < maxAgeCutoff))).length ≤
        (files.filter (fun f => !(decide (f.modified < maxAgeCutoff)))).length := by
      omega
    have hsub := selectFilesByStrategy_subset shuffle strategy
      (files.filter (fun f => !(decide (f.modified < maxAgeCutoff))))
      (((files.length - maxTracks : Nat) : Int) -
        (((files.filter (fun f => decide (f.modified < maxAgeCutoff))).length : Nat) : Int))
      (hshuffle _)
    have hsf : (selectFilesByStrategy shuffle strategy
          (files.filter (fun f => !(decide (f.modified < maxAgeCutoff))))
          (((files.length - maxTracks : Nat) : Int) -
            (((files.filter (fun f => decide (f.modified < maxAgeCutoff))).length : Nat) : Int))).filter
        (fun f => !(decide (f.modified < maxAgeCutoff))) =
      selectFilesByStrategy shuffle strategy
          (files.filter (fun f => !(decide (f.modified < maxAgeCutoff))))
          (((files.length - maxTracks : Nat) : Int) -
            (((files.filter (fun f => decide (f.modified < maxAgeCutoff))).length : Nat) : Int)) := by
      rw [List.filter_eq_self]
      intro a ha
      exact (List.mem_filter.mp (hsub a ha)).2
    constructor
    · rw [List.length_append, hslen, htn, Nat.min_eq_left hminle]
      omega
    · rw [List.filter_append, hof, hsf]
      simp only [List.nil_append]
      rw [hslen, htn, Nat.min_eq_left hminle]
  · rw [if_neg hbranch]
    constructor
    · omega
    · rw [hof]
      simp only [List.length_nil]
      omega

/-- C6, witness: the theorem applied to three files, a cap of one and an
age cutoff of ten, with the identity shuffle. -/
theorem selectFilesForRotation_cap_witness :
    filesThree.length - 1 ≤
      (selectFilesForRotation id RotationStrategy.oldest_first 1 10 filesThree).length ∧
    ((selectFilesForRotation id RotationStrategy.oldest_first 1 10 filesThree).filter
        (fun f => !(decide (f.modified < 10)))).length =
      (filesThree.length - 1) -
        (filesThree.filter (fun f => decide (f.modified < 10))).length :=
  selectFilesForRotation_cap id RotationStrategy.oldest_first 1 10 filesThree
    (fun l => List.Perm.refl l) (by decide)

/-- C7: after a `cleanupArchive` pass over an enabled archive in which
every individual deletion succeeds, at most `archiveMaxTracks` files
remain; exactly the `length − archiveMaxTracks` excess files are deleted;
every deleted file is at least as old (by modification time) as every
surviving file; and deleted plus survivors account for exactly the
original archive contents. -/
theorem cleanupArchive_cap_oldest (archiveMaxTracks : Nat)
    (archiveFiles : List RecommendationFile) :
    (cleanupArchiveRemaining true archiveMaxTracks archiveFiles).length ≤ archiveMaxTracks ∧
    (cleanupArchiveDeleted true archiveMaxTracks archiveFiles).length =
      archiveFiles.length - archiveMaxTracks ∧
    (∀ d ∈ cleanupArchiveDeleted true archiveMaxTracks archiveFiles,
      ∀ k ∈ cleanupArchiveRemaining true archiveMaxTracks archiveFiles,
        d.modified ≤ k.modified) ∧
    List.Perm (cleanupArchiveDeleted true archiveMaxTracks archiveFiles ++
      cleanupArchiveRemaining true archiveMaxTracks archiveFiles) archiveFiles := by
  unfold cleanupArchiveDeleted cleanupArchiveRemaining
  simp only [Bool.not_true, Bool.false_eq_true, if_false]
  by_cases hle : archiveFiles.length ≤ archiveMaxTracks
  · rw [if_pos hle, if_pos hle]
    refine ⟨hle, ?_, ?_, ?_⟩
    · simp [Nat.sub_eq_zero_of_le hle]
    · intro d hd
      cases hd
    · simp
  · rw [if_neg hle, if_neg hle]
    have hslen : (sortAscBy RecommendationFile.modified archiveFiles).length =
        archiveFiles.length :=
      (sortAscBy_perm RecommendationFile.modified archiveFiles).length_eq
    have hsorted := pairwise_sortAscBy RecommendationFile.modified archiveFiles
    have hsplit := List.take_append_drop (archiveFiles.length - archiveMaxTracks)
      (sortAscBy RecommendationFile.modified archiveFiles)
    refine ⟨?_, ?_, ?_, ?_⟩
    · rw [List.length_drop, hslen]
      omega
    · rw [List.length_take, hslen]
      omega
    · intro d hd k hk
      have hpw := hsplit ▸ hsorted
      exact (List.pairwise_append.mp hpw).2.2 d hd k hk
    · rw [hsplit]
      exact sortAscBy_perm RecommendationFile.modified archiveFiles

theorem splitWsAcc_append_space :
    ∀ (x acc y : List Char),
      splitWsAcc acc (x ++ ' ' :: y) = splitWsAcc acc x ++ splitWsAcc [] y := by
  intro x
  induction x with
  | nil =>
    intro acc y
    rcases ha : acc.isEmpty with _ | _ <;>
      simp [splitWsAcc, ha, isWhite]
  | cons c cs ih =>
    intro acc y
    rcases hw : isWhite c with _ | _
    · simp only [List.cons_append, splitWsAcc, hw, Bool.false_eq_true, if_false]
      exact ih (c :: acc) y
    · rcases ha : acc.isEmpty with _ | _ <;>
        simp [splitWsAcc, hw, ha, ih []]

theorem splitWsAcc_words :
    ∀ (s acc : List Char), (∀ c ∈ acc, isWhite c = false) →
      ∀ w ∈ splitWsAcc acc s, w ≠ [] ∧ ∀ c ∈ w, isWhite c = false := by
  intro s
  induction s with
  | nil =>
    intro acc hacc w hw
    rcases ha : acc.isEmpty with _ | _ <;> rw [splitWsAcc, ha] at hw
    · simp only [Bool.false_eq_true, if_false, List.mem_singleton] at hw
      subst hw
      constructor
      · simp only [ne_eq, List.reverse_eq_nil_iff]
        exact fun hcon => by rw [hcon] at ha; cases ha
      · intro c hc
        exact hacc c (List.mem_reverse.mp hc)
    · cases hw
  | cons c cs ih =>
    intro acc hacc w hw
    rw [splitWsAcc] at hw
    rcases hwc : isWhite c with _ | _ <;> rw [hwc] at hw
    · simp only [Bool.false_eq_true, if_false] at hw
      refine ih (c :: acc) ?_ w hw
      intro d hd
      rcases List.mem_cons.mp hd with rfl | hd'
      · exact hwc
      · exact hacc d hd'
    · simp only [if_true] at hw
      rcases ha : acc.isEmpty with _ | _ <;> rw [ha] at hw
      · rcases List.mem_cons.mp hw with rfl | hw'
        · constructor
          · simp only [ne_eq, List.reverse_eq_nil_iff]
            exact fun hcon => by rw [hcon] at ha; cases ha
          · intro d hd
            exact hacc d (List.mem_reverse.mp hd)
        · exact ih [] (by intro d hd; cases hd) w hw'
      · exact ih [] (by intro d hd; cases hd) w hw

theorem joinWs_cons₂ (w w2 : List Char) (ws2 : List (List Char)) :
    joinWs (w :: w2 :: ws2) = w ++ ' ' :: joinWs (w2 :: ws2) := rfl

theorem joinWs_append :
    ∀ (ws vs : List (List Char)), ws ≠ [] → vs ≠ [] →
      joinWs (ws ++ vs) = joinWs ws ++ ' ' :: joinWs vs := by
  intro ws
  induction ws with
  | nil => intro vs h _; cases h rfl
  | cons w ws ih =>
    intro vs _ hvs
    cases ws with
    | nil =>
      cases vs with
      | nil => cases hvs rfl
      | cons v vs2 => rfl
    | cons w2 ws2 =>
      have hih := ih vs (by simp) hvs
      simp only [List.cons_append] at hih ⊢
      rw [joinWs_cons₂, joinWs_cons₂, hih]
      simp [List.append_assoc]

theorem mem_joinWs_isInfix : ∀ (ws : List (List Char)) (w : List Char),
    w ∈ ws → w <:+: joinWs ws := by
  intro ws
  induction ws with
  | nil => intro w h; cases h
  | cons v vs ih =>
    intro w hw
    rcases List.mem_cons.mp hw with rfl | hw'
    · cases vs with
      | nil => exact List.infix_refl w
      | cons v2 vs2 =>
        rw [joinWs_cons₂]
        exact (List.prefix_append w (' ' :: joinWs (v2 :: vs2))).isInfix
    · cases vs with
      | nil => cases hw'
      | cons v2 vs2 =>
        rw [joinWs_cons₂]
        refine (ih w hw').trans ?_
        exact ((List.suffix_cons ' ' (joinWs (v2 :: vs2))).trans
          (List.suffix_append v (' ' :: joinWs (v2 :: vs2)))).isInfix

theorem splitOnChar_no_sep : ∀ (w : List Char), ' ' ∉ w →
    splitOnChar ' ' w = [w] := by
  intro w
  induction w with
  | nil => intro _; rfl
  | cons c cs ih =>
    intro h
    have hc : ¬(c = ' ') := fun hcon => h (hcon ▸ List.mem_cons_self c cs)
    rw [splitOnChar, if_neg hc, ih (fun hcon => h (List.mem_cons_of_mem c hcon))]

theorem splitOnChar_sep_append : ∀ (w rest : List Char), ' ' ∉ w →
    splitOnChar ' ' (w ++ ' ' :: rest) = w :: splitOnChar ' ' rest := by
  intro w
  induction w with
  | nil =>
    intro rest _
    simp only [List.nil_append]
    rw [splitOnChar, if_pos rfl]
  | cons c cs ih =>
    intro rest h
    have hc : ¬(c = ' ') := fun hcon => h (hcon ▸ List.mem_cons_self c cs)
    simp only [List.cons_append]
    rw [splitOnChar, if_neg hc, ih rest (fun hcon => h (List.mem_cons_of_mem c hcon))]

theorem splitOnChar_joinWs : ∀ (ws : List (List Char)),
    (∀ w ∈ ws, ' ' ∉ w) → ws ≠ [] →
    splitOnChar ' ' (joinWs ws) = ws := by
  intro ws
  induction ws with
  | nil => intro _ h; cases h rfl
  | cons w ws ih =>
    intro hmem _
    cases ws with
    | nil => exact splitOnChar_no_sep w (hmem w (List.mem_cons_self w []))
    | cons w2 ws2 =>
      rw [joinWs_cons₂, splitOnChar_sep_append w _ (hmem w (List.mem_cons_self w _)),
        ih (fun v hv => hmem v (List.mem_cons_of_mem w hv)) (by simp)]

theorem normalizeStr_append_space (a b : List Char)
    (ha : splitWs (a.map normChar) ≠ []) (hb : splitWs (b.map normChar) ≠ []) :
    normalizeStr (a ++ ' ' :: b) = normalizeStr a ++ ' ' :: normalizeStr b := by
  unfold normalizeStr splitWs at *
  rw [List.map_append, List.map_cons]
  have hnc : normChar ' ' = ' ' := rfl
  rw [hnc, splitWsAcc_append_space]
  exact joinWs_append _ _ ha hb

theorem splitWs_no_space (s : List Char) :
    ∀ w ∈ splitWs s, ' ' ∉ w := by
  intro w hw hsp
  have := (splitWsAcc_words s [] (by intro c hc; cases hc) w hw).2 ' ' hsp
  cases this

theorem splitOnChar_normalizeStr (s : List Char)
    (h : splitWs (s.map normChar) ≠ []) :
    splitOnChar ' ' (normalizeStr s) = splitWs (s.map normChar) := by
  unfold normalizeStr
  exact splitOnChar_joinWs _ (splitWs_no_space (s.map normChar)) h

theorem calculateMatchScore_fileU2It : calculateMatchScore fileU2It trackU2 = 4/5 := by
  have h1 : includesStr (normalizeStr ['U','2',' ','-',' ','I','t'])
      (normalizeStr ['U','2']) = true := by decide
  have h2 : includesStr (normalizeStr ['U','2',' ','-',' ','I','t'])
      (normalizeStr ['I','t']) = true := by decide
  have h3 : (splitOnChar ' ' (normalizeStr ['U','2'])).filter
      (fun w => 2 < w.length) = [] := by decide
  have h4 : (splitOnChar ' ' (normalizeStr ['I','t'])).filter
      (fun w => 2 < w.length) = [] := by decide
  have h5 : endsWithCI ('.' :: ['f','l','a','c']) ['U','2',' ','-',' ','I','t'] = false := by
    decide
  have h6 : endsWithCI ('.' :: ['w','a','v']) ['U','2',' ','-',' ','I','t'] = false := by
    decide
  have h7 : endsWithCI ('.' :: ['m','p','3']) ['U','2',' ','-',' ','I','t'] = false := by
    decide
  simp only [calculateMatchScore, fileU2It, trackU2, Option.getD,
    h1, h2, h3, h4, h5, h6, h7]
  norm_num

/-- C3, counterexample: the candidate named `U2 - It` for the track
U2 / It has normalised filename exactly equal to the normalised
artist-plus-title of the track, yet `calculateMatchScore` gives 4/5, not
1.0: both the artist and the title consist only of words of at most two
characters, so the word-fraction credits are skipped. -/
theorem calculateMatchScore_exact_not_one :
    normalizeStr (fileU2It.filename.getD []) =
      normalizeStr (trackU2.artist ++ ' ' :: trackU2.title) ∧
    calculateMatchScore fileU2It trackU2 ≠ 1 := by
  constructor
  · decide
  · rw [calculateMatchScore_fileU2It]
    norm_num

theorem rat_nonneg_ite (c : Prop) [Decidable c] {a b : ℚ} (ha : 0 ≤ a) (hb : 0 ≤ b) :
    0 ≤ if c then a else b := by
  split <;> assumption

theorem bit_bonus_nonneg (ob : Option Nat) (s : ℚ) (hs : 0 ≤ s) :
    0 ≤ (match ob with
      | some b =>
        if b ≠ 0 then
          if 320 ≤ b then s + 1/20
          else if 256 ≤ b then s + 3/100
          else if 192 ≤ b then s + 1/100
          else s
        else s
      | none => s) := by
  rcases ob with _ | b
  · exact hs
  · dsimp only
    split_ifs <;> linarith

theorem ext_bonus_nonneg (of : Option (List Char)) (s : ℚ) (hs : 0 ≤ s) :
    0 ≤ (match of with
      | some fn =>
        if endsWithCI ('.' :: ['f','l','a','c']) fn || endsWithCI ('.' :: ['w','a','v']) fn then
          s + 1/10
        else if endsWithCI ('.' :: ['m','p','3']) fn then s + 1/20
        else s
      | none => s) := by
  rcases of with _ | fn
  · exact hs
  · dsimp only
    split_ifs <;> linarith

theorem bit_bonus_le (ob : Option Nat) (s : ℚ) :
    s ≤ (match ob with
      | some b =>
        if b ≠ 0 then
          if 320 ≤ b then s + 1/20
          else if 256 ≤ b then s + 3/100
          else if 192 ≤ b then s + 1/100
          else s
        else s
      | none => s) := by
  rcases ob with _ | b
  · exact le_rfl
  · dsimp only
    split_ifs <;> linarith

theorem ext_bonus_le (of : Option (List Char)) (s : ℚ) :
    s ≤ (match of with
      | some fn =>
        if endsWithCI ('.' :: ['f','l','a','c']) fn || endsWithCI ('.' :: ['w','a','v']) fn then
          s + 1/10
        else if endsWithCI ('.' :: ['m','p','3']) fn then s + 1/20
        else s
      | none => s) := by
  rcases of with _ | fn
  · exact le_rfl
  · dsimp only
    split_ifs <;> linarith

theorem bit_bonus_le_add (ob : Option Nat) (s : ℚ) :
    (match ob with
      | some b =>
        if b ≠ 0 then
          if 320 ≤ b then s + 1/20
          else if 256 ≤ b then s + 3/100
          else if 192 ≤ b then s + 1/100
          else s
        else s
      | none => s) ≤ s + 1/20 := by
  rcases ob with _ | b
  · linarith
  · dsimp only
    split_ifs <;> linarith

theorem ext_bonus_le_add (of : Option (List Char)) (s : ℚ) :
    (match of with
      | some fn =>
        if endsWithCI ('.' :: ['f','l','a','c']) fn || endsWithCI ('.' :: ['w','a','v']) fn then
          s + 1/10
        else if endsWithCI ('.' :: ['m','p','3']) fn then s + 1/20
        else s
      | none => s) ≤ s + 1/10 := by
  rcases of with _ | fn
  · linarith
  · dsimp only
    split_ifs <;> linarith

theorem normalizeStr_append_space_left_nil (a b : List Char)
    (ha : splitWs (a.map normChar) = []) :
    normalizeStr (a ++ ' ' :: b) = normalizeStr b := by
  unfold normalizeStr splitWs at *
  rw [List.map_append, List.map_cons]
  have hnc : normChar ' ' = ' ' := rfl
  rw [hnc, splitWsAcc_append_space, ha, List.nil_append]

theorem normalizeStr_append_space_right_nil (a b : List Char)
    (hb : splitWs (b.map normChar) = []) :
    normalizeStr (a ++ ' ' :: b) = normalizeStr a := by
  unfold normalizeStr splitWs at *
  rw [List.map_append, List.map_cons]
  have hnc : normChar ' ' = ' ' := rfl
  rw [hnc, splitWsAcc_append_space, hb, List.append_nil]

set_option maxHeartbeats 1000000 in
theorem score_eq_one_of (file : CandidateFile) (track : Track)
    (hia : includesStr (normalizeStr (file.filename.getD []))
      (normalizeStr track.artist) = true)
    (hit : includesStr (normalizeStr (file.filename.getD []))
      (normalizeStr track.title) = true)
    (hfa : ((splitOnChar ' ' (normalizeStr track.artist)).filter
        (fun w => 2 < w.length)).filter
        (fun w => includesStr (normalizeStr (file.filename.getD [])) w) =
      (splitOnChar ' ' (normalizeStr track.artist)).filter (fun w => 2 < w.length))
    (hft : ((splitOnChar ' ' (normalizeStr track.title)).filter
        (fun w => 2 < w.length)).filter
        (fun w => includesStr (normalizeStr (file.filename.getD [])) w) =
      (splitOnChar ' ' (normalizeStr track.title)).filter (fun w => 2 < w.length))
    (hlong :
      (splitOnChar ' ' (normalizeStr track.artist)).filter (fun w => 2 < w.length) ≠ [] ∨
      (splitOnChar ' ' (normalizeStr track.title)).filter (fun w => 2 < w.length) ≠ []) :
    calculateMatchScore file track = 1 := by
  have hno : ¬(0 < ([] : List (List Char)).length) := by simp
  simp only [calculateMatchScore]
  rw [hia, hit, hfa, hft]
  simp only [eq_self_iff_true, if_true]
  by_cases hA : (splitOnChar ' ' (normalizeStr track.artist)).filter
      (fun w => 2 < w.length) = []
  · have hT : (splitOnChar ' ' (normalizeStr track.title)).filter
        (fun w => 2 < w.length) ≠ [] := by
      rcases hlong with h | h
      · exact absurd hA h
      · exact h
    have hposT : 0 < ((splitOnChar ' ' (normalizeStr track.title)).filter
        (fun w => 2 < w.length)).length := List.length_pos.mpr hT
    have hcastT : (((((splitOnChar ' ' (normalizeStr track.title)).filter
        (fun w => 2 < w.length)).length) : ℚ)) ≠ 0 := by
      exact_mod_cast Nat.pos_iff_ne_zero.mp hposT
    rw [hA, if_neg hno, if_pos hposT, div_self hcastT]
    apply min_eq_right
    refine le_trans ?_ (le_trans (ext_bonus_le file.filename _)
      (bit_bonus_le file.bitRate _))
    norm_num
  · have hposA : 0 < ((splitOnChar ' ' (normalizeStr track.artist)).filter
        (fun w => 2 < w.length)).length := List.length_pos.mpr hA
    have hcastA : (((((splitOnChar ' ' (normalizeStr track.artist)).filter
        (fun w => 2 < w.length)).length) : ℚ)) ≠ 0 := by
      exact_mod_cast Nat.pos_iff_ne_zero.mp hposA
    rw [if_pos hposA, div_self hcastA]
    by_cases hT : (splitOnChar ' ' (normalizeStr track.title)).filter
        (fun w => 2 < w.length) = []
    · rw [hT, if_neg hno]
      apply min_eq_right
      refine le_trans ?_ (le_trans (ext_bonus_le file.filename _)
        (bit_bonus_le file.bitRate _))
      norm_num
    · have hposT : 0 < ((splitOnChar ' ' (normalizeStr track.title)).filter
          (fun w => 2 < w.length)).length := List.length_pos.mpr hT
      have hcastT : (((((splitOnChar ' ' (normalizeStr track.title)).filter
          (fun w => 2 < w.length)).length) : ℚ)) ≠ 0 := by
        exact_mod_cast Nat.pos_iff_ne_zero.mp hposT
      rw [if_pos hposT, div_self hcastT]
      apply min_eq_right
      refine le_trans ?_ (le_trans (ext_bonus_le file.filename _)
        (bit_bonus_le file.bitRate _))
      norm_num

set_option maxHeartbeats 1000000 in
/-- C3 (amended): every match score lies in [0, 1]; a candidate whose
normalised filename equals the normalised "artist title" of the wanted
track scores exactly 1.0 provided the artist or the title contributes a
word longer than two characters (the two inclusion credits of 0.4 plus a
full word-fraction credit of 0.2 already reach 1.0 before clamping); and
when neither contributes such a word, both word-fraction credits are
skipped and no candidate scores above 0.95 (0.8 from the inclusion
credits plus at most 0.15 of quality bonuses), so an exact match with
only short words stays strictly below 1.0. -/
theorem calculateMatchScore_range_exact (file : CandidateFile) (track : Track) :
    (0 ≤ calculateMatchScore file track ∧ calculateMatchScore file track ≤ 1) ∧
    (normalizeStr (file.filename.getD []) =
        normalizeStr (track.artist ++ ' ' :: track.title) →
      ((splitOnChar ' ' (normalizeStr track.artist)).filter (fun w => 2 < w.length) ≠ []
        ∨ (splitOnChar ' ' (normalizeStr track.title)).filter (fun w => 2 < w.length) ≠ []) →
      calculateMatchScore file track = 1) ∧
    ((splitOnChar ' ' (normalizeStr track.artist)).filter (fun w => 2 < w.length) = [] →
      (splitOnChar ' ' (normalizeStr track.title)).filter (fun w => 2 < w.length) = [] →
      calculateMatchScore file track ≤ 19/20) := by
  refine ⟨⟨?_, ?_⟩, ?_, ?_⟩
  · unfold calculateMatchScore
    refine le_min ?_ (by norm_num)
    apply bit_bonus_nonneg
    apply ext_bonus_nonneg
    repeat
      first
      | apply rat_nonneg_ite
      | apply add_nonneg
    all_goals positivity
  · unfold calculateMatchScore
    exact min_le_right _ 1
  · intro hfn hlong
    by_cases hsA : splitWs (track.artist.map normChar) = []
    · have hnA : normalizeStr track.artist = [] := by
        unfold normalizeStr
        rw [hsA]
        rfl
      have hAfil : (splitOnChar ' ' (normalizeStr track.artist)).filter
          (fun w => 2 < w.length) = [] := by
        rw [hnA]
        rfl
      have hT : (splitOnChar ' ' (normalizeStr track.title)).filter
          (fun w => 2 < w.length) ≠ [] := by
        rcases hlong with h | h
        · exact absurd hAfil h
        · exact h
      have hsT : splitWs (track.title.map normChar) ≠ [] := by
        intro hcon
        apply hT
        have hnT : normalizeStr track.title = [] := by
          unfold normalizeStr
          rw [hcon]
          rfl
        rw [hnT]
        rfl
      have hN : normalizeStr (track.artist ++ ' ' :: track.title) =
          normalizeStr track.title :=
        normalizeStr_append_space_left_nil _ _ hsA
      have hia : includesStr (normalizeStr (file.filename.getD []))
          (normalizeStr track.artist) = true := by
        rw [hnA]
        exact decide_eq_true List.nil_prefix.isInfix
      have hit : includesStr (normalizeStr (file.filename.getD []))
          (normalizeStr track.title) = true := by
        rw [hfn, hN]
        exact decide_eq_true (List.infix_refl _)
      have hwt : ∀ w ∈ (splitOnChar ' ' (normalizeStr track.title)).filter
          (fun w => 2 < w.length),
          includesStr (normalizeStr (file.filename.getD [])) w = true := by
        intro w hw
        have hw1 : w ∈ splitWs (track.title.map normChar) := by
          rw [← splitOnChar_normalizeStr track.title hsT]
          exact (List.mem_filter.mp hw).1
        have hinf : w <:+: normalizeStr track.title := mem_joinWs_isInfix _ w hw1
        rw [hfn, hN]
        exact decide_eq_true hinf
      have hfa : ((splitOnChar ' ' (normalizeStr track.artist)).filter
          (fun w => 2 < w.length)).filter
          (fun w => includesStr (normalizeStr (file.filename.getD [])) w) =
          (splitOnChar ' ' (normalizeStr track.artist)).filter (fun w => 2 < w.length) := by
        rw [hAfil]
        rfl
      exact score_eq_one_of file track hia hit hfa (List.filter_eq_self.mpr hwt)
        (Or.inr hT)
    · by_cases hsT : splitWs (track.title.map normChar) = []
      · have hnT : normalizeStr track.title = [] := by
          unfold normalizeStr
          rw [hsT]
          rfl
        have hTfil : (splitOnChar ' ' (normalizeStr track.title)).filter
            (fun w => 2 < w.length) = [] := by
          rw [hnT]
          rfl
        have hA : (splitOnChar ' ' (normalizeStr track.artist)).filter
            (fun w => 2 < w.length) ≠ [] := by
          rcases hlong with h | h
          · exact h
          · exact absurd hTfil h
        have hN : normalizeStr (track.artist ++ ' ' :: track.title) =
            normalizeStr track.artist :=
          normalizeStr_append_space_right_nil _ _ hsT
        have hia : includesStr (normalizeStr (file.filename.getD []))
            (normalizeStr track.artist) = true := by
          rw [hfn, hN]
          exact decide_eq_true (List.infix_refl _)
        have hit : includesStr (normalizeStr (file.filename.getD []))
            (normalizeStr track.title) = true := by
          rw [hnT]
          exact decide_eq_true List.nil_prefix.isInfix
        have hwa : ∀ w ∈ (splitOnChar ' ' (normalizeStr track.artist)).filter
            (fun w => 2 < w.length),
            includesStr (normalizeStr (file.filename.getD [])) w = true := by
          intro w hw
          have hw1 : w ∈ splitWs (track.artist.map normChar) := by
            rw [← splitOnChar_normalizeStr track.artist hsA]
            exact (List.mem_filter.mp hw).1
          have hinf : w <:+: normalizeStr track.artist := mem_joinWs_isInfix _ w hw1
          rw [hfn, hN]
          exact decide_eq_true hinf
        have hft : ((splitOnChar ' ' (normalizeStr track.title)).filter
            (fun w => 2 < w.length)).filter
            (fun w => includesStr (normalizeStr (file.filename.getD [])) w) =
            (splitOnChar ' ' (normalizeStr track.title)).filter (fun w => 2 < w.length) := by
          rw [hTfil]
          rfl
        exact score_eq_one_of file track hia hit (List.filter_eq_self.mpr hwa) hft
          (Or.inl hA)
      · have hdec : normalizeStr (track.artist ++ ' ' :: track.title) =
            normalizeStr track.artist ++ ' ' :: normalizeStr track.title :=
          normalizeStr_append_space track.artist track.title hsA hsT
        have hia : includesStr (normalizeStr (file.filename.getD []))
            (normalizeStr track.artist) = true := by
          rw [hfn, hdec]
          exact decide_eq_true (List.prefix_append _ _).isInfix
        have hit : includesStr (normalizeStr (file.filename.getD []))
            (normalizeStr track.title) = true := by
          rw [hfn, hdec]
          exact decide_eq_true (((List.suffix_cons ' ' (normalizeStr track.title)).trans
            (List.suffix_append _ _)).isInfix)
        have hwa : ∀ w ∈ (splitOnChar ' ' (normalizeStr track.artist)).filter
            (fun w => 2 < w.length),
            includesStr (normalizeStr (file.filename.getD [])) w = true := by
          intro w hw
          have hw1 : w ∈ splitWs (track.artist.map normChar) := by
            rw [← splitOnChar_normalizeStr track.artist hsA]
            exact (List.mem_filter.mp hw).1
          have hinf : w <:+: normalizeStr track.artist := mem_joinWs_isInfix _ w hw1
          rw [hfn, hdec]
          exact decide_eq_true (hinf.trans (List.prefix_append _ _).isInfix)
        have hwt : ∀ w ∈ (splitOnChar ' ' (normalizeStr track.title)).filter
            (fun w => 2 < w.length),
            includesStr (normalizeStr (file.filename.getD [])) w = true := by
          intro w hw
          have hw1 : w ∈ splitWs (track.title.map normChar) := by
            rw [← splitOnChar_normalizeStr track.title hsT]
            exact (List.mem_filter.mp hw).1
          have hinf : w <:+: normalizeStr track.title := mem_joinWs_isInfix _ w hw1
          rw [hfn, hdec]
          exact decide_eq_true (hinf.trans
            (((List.suffix_cons ' ' (normalizeStr track.title)).trans
              (List.suffix_append _ _)).isInfix))
        exact score_eq_one_of file track hia hit (List.filter_eq_self.mpr hwa)
          (List.filter_eq_self.mpr hwt) hlong
  · intro hA hT
    have hno : ¬(0 < ([] : List (List Char)).length) := by simp
    simp only [calculateMatchScore]
    rw [hA, hT, if_neg hno, if_neg hno]
    refine le_trans (min_le_left _ _) ?_
    refine le_trans (bit_bonus_le_add file.bitRate _) ?_
    refine le_trans (add_le_add_right (ext_bonus_le_add file.filename _) _) ?_
    split_ifs <;> norm_num

/-- C3, witness: the amended theorem applied to the exactly-matching
candidate `U2 - Run` for the track U2 / Run — only the title contributes
a word longer than two characters, and the score is still exactly 1 —
and, for the no-long-words bound, to the `U2 - It` candidate of the
track U2 / It. -/
theorem calculateMatchScore_range_exact_witness :
    ((0 ≤ calculateMatchScore fileU2Run trackU2Run ∧
      calculateMatchScore fileU2Run trackU2Run ≤ 1) ∧
     calculateMatchScore fileU2Run trackU2Run = 1) ∧
    calculateMatchScore fileU2It trackU2 ≤ 19/20 :=
  ⟨⟨(calculateMatchScore_range_exact fileU2Run trackU2Run).1,
    (calculateMatchScore_range_exact fileU2Run trackU2Run).2.1 (by decide)
      (Or.inr (by decide))⟩,
   (calculateMatchScore_range_exact fileU2It trackU2).2.2 (by decide) (by decide)⟩

end MusicSpree
